import Mathlib

/-!
# Consensus transport layer: verification of the spec against the code

A shallow embedding of the per-instance QBFT consensus transport
(`transport.go` of the `consensus` package): the value store, the message
codec (`createMsg` / `validateMsg`), the sniffer, `Broadcast` and
`ProcessReceives`, together with proofs of the specified properties.

Machine integers are modelled as `Int`/`Nat`; the Go `[32]byte` hash is a
`List Nat` of length 32 (the zero hash is 32 zero bytes); Go maps are
association lists with last-write-wins insertion; `*anypb.Any` pointers are
`Option AnyValue`; Go `error` results are `Except String`.
-/

namespace Consensus

/-- A 32-byte content hash (`[32]byte` in the source), as its byte list. -/
abbrev Hash : Type := List Nat

/-- The zero `[32]byte` value: 32 zero bytes (`[32]byte{}` in Go). -/
def zeroHash : Hash := List.replicate 32 0

/-- An opaque wire value (`*anypb.Any` pointee): a type URL and payload bytes. -/
structure AnyValue where
  typeUrl : String
  data : List Nat
deriving DecidableEq, Repr

/-- A consensus duty: slot and duty type (`core.Duty`). -/
structure Duty where
  slot : Nat
  dutyType : Nat
deriving DecidableEq, Repr

/-- The transport value store contents: Go `map[[32]byte]*anypb.Any`,
modelled as an association list with last-write-wins insertion. -/
abbrev Store : Type := List (Hash × AnyValue)

/-- Go map assignment `m[k] = v`: replace any existing entry for `k`. -/
def storePut (s : Store) (k : Hash) (v : AnyValue) : Store :=
  (k, v) :: s.filter (fun e => !(e.1 == k))

/-- Go map lookup `m[k]`: `some v` if present, `none` (Go `ok=false`) if absent. -/
def storeGet (s : Store) (k : Hash) : Option AnyValue :=
  (s.find? (fun e => e.1 == k)).map Prod.snd

/-- Merge all entries of `vs` into `s`, in iteration order (`setValues` body:
`for k, v := range msg.values { t.values[k] = v }`). -/
def storePutAll (s : Store) (vs : List (Hash × AnyValue)) : Store :=
  vs.foldl (fun acc e => storePut acc e.1 e.2) s

/-- The wire QBFT message envelope minus its signature field: exactly the
fields of `pbv1.QBFTMsg` that the canonical signed encoding covers. -/
structure QBFTBody where
  typ : Int
  duty : Duty
  peerIdx : Int
  round : Int
  value : Option AnyValue
  valueHash : List Nat
  preparedRound : Int
  preparedValue : Option AnyValue
  preparedValueHash : List Nat
deriving DecidableEq, Repr

/-- A signature value: `Modelled from the spec:` the signature is produced
over "a canonical encoding of the message excluding the signature field"
with the sender's private key; we model the canonical encoding by the
(injectively encoded) body itself paired with the signing key. -/
abbrev Signature : Type := QBFTBody × Nat

/-- The wire `pbv1.QBFTMsg`: the envelope body plus its signature field
(`none` before signing). -/
structure QBFTMsg where
  body : QBFTBody
  signature : Option Signature
deriving DecidableEq

/-- `Modelled from the spec:` `signMsg` (not under src/) signs the canonical
encoding of the envelope excluding the signature field and returns the
message with the signature set. -/
def signMsg (m : QBFTMsg) (privkey : Nat) : QBFTMsg :=
  { m with signature := some (m.body, privkey) }

/-- The internal `msg` wrapper type (`Modelled from the spec:` the `msg`
struct and `newMsg` are not under src/): the signed envelope, the depth-1
justification envelopes, and the pointer-mode values side-map. -/
structure msg where
  pmsg : QBFTMsg
  justification : List QBFTMsg
  values : List (Hash × AnyValue)
deriving DecidableEq

/-- `Modelled from the spec:` `newMsg` (not under src/) wraps the signed
envelope, justification envelopes and side-map into a `msg`. -/
def newMsg (pbMsg : QBFTMsg) (justMsgs : List QBFTMsg)
    (values : List (Hash × AnyValue)) : Except String msg :=
  Except.ok { pmsg := pbMsg, justification := justMsgs, values := values }

/-- The wire `pbv1.ConsensusMsg`: envelope, depth-1 justifications, side-map. -/
structure ConsensusMsg where
  cmsg : QBFTMsg
  justification : List QBFTMsg
  values : List (Hash × AnyValue)
deriving DecidableEq

/-- `msg.ToConsensusMsg` (`Modelled from the spec:` not under src/): the wire
form carries the same envelope, justifications and side-map. -/
def msg.ToConsensusMsg (m : msg) : ConsensusMsg :=
  { cmsg := m.pmsg, justification := m.justification, values := m.values }

/-- A `qbft.Msg[core.Duty, [32]byte]` interface value: either the transport's
own `msg` implementation or a foreign implementation (the Go type assertion
`j.(msg)` fails on the latter). -/
inductive QMsg where
  | impl (m : msg)
  | foreign
deriving DecidableEq

/-- The loop body transforming one justification into its protobuf: the Go
type assertion `j.(msg)` fails on foreign implementations; on success only
the bare envelope `impl.msg` is taken (nested justifications are ignored). -/
def justToProto (j : QMsg) : Except String QBFTMsg :=
  match j with
  | QMsg.impl m => Except.ok m.pmsg
  | QMsg.foreign => Except.error "invalid justification"

/-- The `for _, j := range justification` loop of `createMsg`: convert each
justification in order, aborting on the first failure. -/
def justsToProtos : List QMsg → Except String (List QBFTMsg)
  | [] => Except.ok []
  | j :: rest =>
    match justToProto j with
    | Except.error e => Except.error e
    | Except.ok p =>
      match justsToProtos rest with
      | Except.error e => Except.error e
      | Except.ok ps => Except.ok (p :: ps)

/-- `createMsg`: assemble the side-map from the non-nil values, clear it and
zero both hashes in legacy mode, build and sign the envelope, flatten the
justifications to their bare envelopes, and wrap. Mirrors
`createMsg` in the source line by line. -/
def createMsg (typ : Int) (duty : Duty) (peerIdx round : Int)
    (vHash : Hash) (value : Option AnyValue) (pr : Int)
    (pvHash : Hash) (pv : Option AnyValue)
    (justification : List QMsg) (privkey : Nat)
    (pointerValues : Bool) : Except String msg :=
  let values0 : List (Hash × AnyValue) :=
    match value with
    | some v => storePut [] vHash v
    | none => []
  let values1 : List (Hash × AnyValue) :=
    match pv with
    | some v => storePut values0 pvHash v
    | none => values0
  -- Disable new pointer values, revert to legacy duplicated values.
  let values := if !pointerValues then [] else values1
  let vHash := if !pointerValues then zeroHash else vHash
  let pvHash := if !pointerValues then zeroHash else pvHash
  let pbMsg : QBFTMsg :=
    { body :=
        { typ := typ, duty := duty, peerIdx := peerIdx, round := round
          value := value, valueHash := vHash
          preparedRound := pr, preparedValue := pv, preparedValueHash := pvHash }
      signature := none }
  let pbMsg := signMsg pbMsg privkey
  -- Transform justifications into protobufs; nested justifications are ignored.
  match justsToProtos justification with
  | Except.error e => Except.error e
  | Except.ok justMsgs => newMsg pbMsg justMsgs values

/-- `validateMsg` as in the source: the body is only a TODO comment and
`return nil`, so every message is accepted. -/
def validateMsg (_ : msg) : Except String Unit :=
  Except.ok ()

/-- Round a rational to the nearest integer, ties to even: the IEEE 754
round-to-nearest-even rule at integer granularity. -/
def roundHalfEven (m : ℚ) : Int :=
  if m - ⌊m⌋ < 1 / 2 then ⌊m⌋
  else if 1 / 2 < m - ⌊m⌋ then ⌊m⌋ + 1
  else if ⌊m⌋ % 2 = 0 then ⌊m⌋ else ⌊m⌋ + 1

/-- Floor of the base-2 logarithm of a byte value in `[1, 255]`, by direct
comparison. -/
def byteLog2 (b : Nat) : Nat :=
  if b < 2 then 0 else if b < 4 then 1 else if b < 8 then 2
  else if b < 16 then 3 else if b < 32 then 4 else if b < 64 then 5
  else if b < 128 then 6 else 7

/-- Binade exponent of the exact quotient `b / 255` for a byte `b` in
`[1, 255]`: the `e` with `2^e ≤ b/255 < 2^(e+1)`, namely `byteLog2 b - 8`
except that `b = 255` gives the quotient `1` with `e = 0`. -/
def float64Exp (b : Nat) : Int :=
  if b = 255 then 0 else (byteLog2 b : Int) - 8

/-- Scale the exact quotient `b / 255` into the window `[2^52, 2^53)`,
where rounding to the nearest integer is rounding to 53 significand bits. -/
def float64Scaled (b : Nat) : ℚ :=
  (b : ℚ) * (2 : ℚ) ^ ((52 : Int) - float64Exp b) / 255

/-- The exact value of the Go expression `float64(b) / 255` for a byte `b`:
the byte converts to `float64` exactly, and IEEE 754 requires the division
to be correctly rounded — round-to-nearest-even of the exact quotient at 53
significand bits. The quotient is scaled into `[2^52, 2^53)`, rounded to
the nearest integer (ties to even), and scaled back. The quotient is far
inside the normal range, so no overflow or subnormal cases arise. -/
def float64Div255 (b : Nat) : ℚ :=
  if b = 0 then 0
  else (roundHalfEven (float64Scaled b) : ℚ) * (2 : ℚ) ^ (float64Exp b - 52)

/-- `usePointerValues`: draw a byte `b`, compute the `float64` quotient
`f = float64(b) / 255` (correctly rounded, modelled exactly by
`float64Div255`), and use pointer values iff `f ≥ legacyProbability`, the
latter taken as the exact rational value of the configured `float64`. -/
def usePointerValues (b : Nat) (legacyProbability : ℚ) : Bool :=
  decide (float64Div255 b ≥ legacyProbability)

/-- `getValue`: look the hash up in the value store; absent hashes fail with
the `unknown value` error. -/
def getValue (store : Store) (hash : Hash) : Except String AnyValue :=
  match storeGet store hash with
  | some pb => Except.ok pb
  | none => Except.error "unknown value"

/-- `setValues`: cache the values carried by a message into the store. -/
def setValues (store : Store) (m : msg) : Store :=
  storePutAll store m.values

/-- The immutable part of the enclosing `Component` that `Broadcast` reads:
operator peer identities, the local host identity (`tcpNode.ID()`), the
private key, the legacy probability, and the P2P sender, whose per-peer
outcome is modelled as a function of the destination identity. -/
structure Component where
  peers : List Nat
  localID : Nat
  privkey : Nat
  legacyProbability : ℚ
  sendAsync : Nat → Except String Unit

/-- Observable effects of one `Broadcast` call: the loopback enqueues on the
inner channel, the sniffer additions, and the `SendAsync` destinations in
order of invocation. -/
structure Effects where
  loopback : List msg
  sniffed : List ConsensusMsg
  sends : List Nat
deriving DecidableEq

/-- No effect at all. -/
def Effects.empty : Effects := { loopback := [], sniffed := [], sends := [] }

/-- The fan-out loop of `Broadcast`: skip the local identity, send to every
other peer in order, abort on the first `SendAsync` error. Returns the call
result and the invoked destinations. -/
def sendToPeers (sendAsync : Nat → Except String Unit) (localID : Nat) :
    List Nat → Except String Unit × List Nat
  | [] => (Except.ok (), [])
  | p :: rest =>
    if p = localID then
      -- Do not broadcast to self
      sendToPeers sendAsync localID rest
    else
      match sendAsync p with
      | Except.error e => (Except.error e, [p])
      | Except.ok _ =>
        let r := sendToPeers sendAsync localID rest
        (r.1, p :: r.2)

/-- The hash-dereference and build phase of `Broadcast`: fetch each non-zero
hash from the value store, then `createMsg`. -/
def prepareMsg (c : Component) (store : Store) (randByte : Nat)
    (typ : Int) (duty : Duty) (peerIdx round : Int) (valueHash : Hash)
    (pr : Int) (pvHash : Hash) (justification : List QMsg) :
    Except String msg :=
  match (if valueHash ≠ zeroHash then (getValue store valueHash).map some
      else Except.ok none) with
  | Except.error e => Except.error e
  | Except.ok value =>
    match (if pvHash ≠ zeroHash then (getValue store pvHash).map some
        else Except.ok none) with
    | Except.error e => Except.error e
    | Except.ok pv =>
      createMsg typ duty peerIdx round valueHash value pr pvHash pv
        justification c.privkey (usePointerValues randByte c.legacyProbability)

/-- `Broadcast`: dereference hashes, build and sign the message, loop it back
to self asynchronously (the enqueue and its sniff happen only while the
instance context is live, modelled by `ctxLive`), then send to every remote
peer until the first error. Returns the call result and all effects; an
early error produces no effect. -/
def Broadcast (c : Component) (store : Store) (ctxLive : Bool)
    (randByte : Nat) (typ : Int) (duty : Duty) (peerIdx round : Int)
    (valueHash : Hash) (pr : Int) (pvHash : Hash)
    (justification : List QMsg) : Except String Unit × Effects :=
  match prepareMsg c store randByte typ duty peerIdx round valueHash pr pvHash
      justification with
  | Except.error e => (Except.error e, Effects.empty)
  | Except.ok m =>
    let (loopback, sniffed) :=
      if ctxLive then ([m], [m.ToConsensusMsg]) else ([], [])
    let r := sendToPeers c.sendAsync c.localID c.peers
    (r.1, { loopback := loopback, sniffed := sniffed, sends := r.2 })

/-- The per-instance transport state mutated by the inbound path: the value
store, the inner channel contents (oldest first) and the sniffer log. -/
structure TransportState where
  values : Store
  recvBuffer : List msg
  sniffed : List ConsensusMsg
deriving DecidableEq

/-- One iteration of the `ProcessReceives` loop on a message taken from the
outer buffer: validate (drop on failure), `setValues`, enqueue on the inner
channel, record in the sniffer. -/
def processReceive (st : TransportState) (m : msg) : TransportState :=
  match validateMsg m with
  | Except.error _ => st
  | Except.ok _ =>
    { values := setValues st.values m
      recvBuffer := st.recvBuffer ++ [m]
      sniffed := st.sniffed ++ [m.ToConsensusMsg] }

/-! ## Helper lemmas -/

/-- Looking up the just-written key returns the written value. -/
theorem storeGet_put_self (s : Store) (k : Hash) (v : AnyValue) :
    storeGet (storePut s k v) k = some v := by
  simp [storeGet, storePut, List.find?]

/-- Filtering out the entries of an unrelated key does not change which
entry a key lookup finds. -/
theorem find?_filter_ne (t : List (Hash × AnyValue)) (k k1 : Hash)
    (h : k ≠ k1) :
    List.find? (fun e => e.1 == k) (t.filter (fun e => !(e.1 == k1)))
      = List.find? (fun e => e.1 == k) t := by
  induction t with
  | nil => rfl
  | cons a t ih =>
    rw [List.filter_cons]
    cases h1 : (a.1 == k1) with
    | true =>
      have hak : (a.1 == k) = false :=
        beq_eq_false_iff_ne.mpr (fun he => h (he ▸ beq_iff_eq.mp h1))
      simp only [List.find?_cons, h1, hak, Bool.not_true]
      simp only [Bool.false_eq_true, if_false]
      exact ih
    | false =>
      cases hb : (a.1 == k) with
      | true =>
        simp only [h1, Bool.not_false, if_true, List.find?_cons, hb]
      | false =>
        simp only [h1, Bool.not_false, if_true, List.find?_cons, hb]
        exact ih

/-- Writing one key leaves lookups of other keys unchanged. -/
theorem storeGet_put_other (s : Store) (k k1 : Hash) (v1 : AnyValue)
    (h : k ≠ k1) : storeGet (storePut s k1 v1) k = storeGet s k := by
  have hk : (k1 == k) = false := beq_eq_false_iff_ne.mpr (fun he => h he.symm)
  simp only [storeGet, storePut, List.find?_cons, hk]
  rw [find?_filter_ne s k k1 h]

/-- Merging entries none of which has key `k` leaves the lookup of `k`
unchanged. -/
theorem storeGet_putAll_other (vs : List (Hash × AnyValue)) (s : Store)
    (k : Hash) (h : k ∉ vs.map Prod.fst) :
    storeGet (storePutAll s vs) k = storeGet s k := by
  induction vs generalizing s with
  | nil => rfl
  | cons a t ih =>
    simp only [List.map, List.mem_cons, not_or] at h
    have step : storePutAll s (a :: t) = storePutAll (storePut s a.1 a.2) t := rfl
    rw [step, ih _ h.2, storeGet_put_other _ _ _ _ h.1]

/-- Merging a duplicate-free entry list makes every one of its bindings
visible in the result. -/
theorem storeGet_putAll_mem (vs : List (Hash × AnyValue)) (s : Store)
    (k : Hash) (v : AnyValue) (hnd : (vs.map Prod.fst).Nodup)
    (h : storeGet vs k = some v) :
    storeGet (storePutAll s vs) k = some v := by
  induction vs generalizing s with
  | nil => simp [storeGet, List.find?] at h
  | cons a t ih =>
    simp only [List.map, List.nodup_cons] at hnd
    have step : storePutAll s (a :: t) = storePutAll (storePut s a.1 a.2) t := rfl
    by_cases hak : a.1 = k
    · have hbeq : (a.1 == k) = true := beq_iff_eq.mpr hak
      have hv : v = a.2 := by
        simp [storeGet, List.find?, hbeq] at h
        exact h.symm
      have hnotin : k ∉ t.map Prod.fst := hak ▸ hnd.1
      rw [step, storeGet_putAll_other _ _ _ hnotin, hv, ← hak]
      exact storeGet_put_self s a.1 a.2
    · have hbeq : (a.1 == k) = false := beq_eq_false_iff_ne.mpr hak
      have ht : storeGet t k = some v := by
        simpa [storeGet, List.find?_cons, hbeq] using h
      rw [step]
      exact ih (storePut s a.1 a.2) hnd.2 ht

/-- Converting a list of genuine `msg` implementations succeeds and keeps
exactly the bare envelopes. -/
theorem justsToProtos_impl (js : List msg) :
    justsToProtos (js.map QMsg.impl) = Except.ok (js.map msg.pmsg) := by
  induction js with
  | nil => rfl
  | cons a t ih => simp [justsToProtos, justToProto, ih]

/-- The fan-out loop never sends to the local identity. -/
theorem sendToPeers_no_self (send : Nat → Except String Unit) (localID : Nat)
    (ps : List Nat) : localID ∉ (sendToPeers send localID ps).2 := by
  induction ps with
  | nil => simp [sendToPeers]
  | cons p rest ih =>
    by_cases hp : p = localID
    · simpa [sendToPeers, hp] using ih
    · cases hs : send p with
      | error e =>
        simp [sendToPeers, hp, hs]
        exact fun he => hp he.symm
      | ok u =>
        simp [sendToPeers, hp, hs]
        exact ⟨fun he => hp he.symm, ih⟩

/-- When every remote send succeeds, the fan-out loop succeeds and sends to
exactly the non-local peers in order. -/
theorem sendToPeers_all_ok (send : Nat → Except String Unit) (localID : Nat)
    (ps : List Nat)
    (h : ∀ p ∈ ps, p ≠ localID → send p = Except.ok ()) :
    sendToPeers send localID ps
      = (Except.ok (), ps.filter (fun q => !(q == localID))) := by
  induction ps with
  | nil => rfl
  | cons p rest ih =>
    have hrest : ∀ q ∈ rest, q ≠ localID → send q = Except.ok () :=
      fun q hq => h q (List.mem_cons_of_mem _ hq)
    by_cases hp : p = localID
    · simp [sendToPeers, hp, List.filter_cons, ih hrest]
    · have hs : send p = Except.ok () := h p (List.mem_cons_self _ _) hp
      simp [sendToPeers, hp, hs, List.filter_cons, ih hrest]

/-- The first failing remote send aborts the fan-out loop: the result is that
error, and the sends made are exactly the preceding peers plus the failing
one. -/
theorem sendToPeers_first_error (send : Nat → Except String Unit)
    (localID : Nat) (ps : List Nat) (p : Nat) (post : List Nat) (e : String) :
    ∀ pre, ps.filter (fun q => !(q == localID)) = pre ++ p :: post →
      (∀ q ∈ pre, send q = Except.ok ()) → send p = Except.error e →
      sendToPeers send localID ps = (Except.error e, pre ++ [p]) := by
  induction ps with
  | nil =>
    intro pre hsplit _ _
    simp at hsplit
  | cons a rest ih =>
    intro pre hsplit hpre hp
    rw [List.filter_cons] at hsplit
    by_cases ha : a = localID
    · simp [ha] at hsplit
      simpa [sendToPeers, ha] using ih pre hsplit hpre hp
    · simp [ha] at hsplit
      cases pre with
      | nil =>
        simp at hsplit
        obtain ⟨hap, hrest⟩ := hsplit
        subst hap
        simp [sendToPeers, ha, hp]
      | cons b pre2 =>
        simp at hsplit
        obtain ⟨hab, hrest⟩ := hsplit
        subst hab
        have hb : send a = Except.ok () := hpre a (List.mem_cons_self _ _)
        have := ih pre2 hrest (fun q hq => hpre q (List.mem_cons_of_mem _ hq)) hp
        simp [sendToPeers, ha, hb, this]

/-- Removing the one occurrence of an identity from a peer list leaves
`length - 1` peers. -/
theorem filter_ne_length (ps : List Nat) (a : Nat) (h : ps.count a = 1) :
    (ps.filter (fun q => !(q == a))).length = ps.length - 1 := by
  induction ps with
  | nil => simp at h
  | cons p rest ih =>
    rw [List.filter_cons]
    by_cases hp : p = a
    · have hz : rest.count a = 0 := by
        rw [List.count_cons] at h
        simp [hp] at h
        exact h
      have hrest : rest.filter (fun q => !(q == a)) = rest := by
        rw [List.filter_eq_self]
        intro b hb
        have : b ≠ a := by
          intro hba
          rw [List.count_eq_zero] at hz
          exact hz (hba ▸ hb)
        simp [this]
      simp [hp, hrest]
    · have h1 : rest.count a = 1 := by
        rw [List.count_cons] at h
        simp [hp] at h
        exact h
      have hne : rest ≠ [] := by
        rintro rfl
        simp at h1
      have hpos : 0 < rest.length := List.length_pos.mpr hne
      have := ih h1
      simp [hp, this]
      omega

/-- Rounding half-to-even moves a rational by at most one half. -/
theorem roundHalfEven_bounds (m : ℚ) :
    m - 1 / 2 ≤ (roundHalfEven m : ℚ) ∧ (roundHalfEven m : ℚ) ≤ m + 1 / 2 := by
  unfold roundHalfEven
  have h1 : (⌊m⌋ : ℚ) ≤ m := Int.floor_le m
  have h2 : m < ⌊m⌋ + 1 := Int.lt_floor_add_one m
  split
  · constructor <;> push_cast <;> linarith
  · split
    · constructor <;> push_cast <;> linarith
    · split
      · constructor <;> push_cast <;> linarith
      · constructor <;> push_cast <;> linarith

/-- Rounding half-to-even preserves nonnegativity. -/
theorem roundHalfEven_nonneg (m : ℚ) (h : 0 ≤ m) : 0 ≤ roundHalfEven m := by
  unfold roundHalfEven
  have hf : 0 ≤ ⌊m⌋ := Int.floor_nonneg.mpr h
  split
  · exact hf
  · split
    · omega
    · split
      · exact hf
      · omega

/-- The byte logarithm never exceeds 7. -/
theorem byteLog2_le (b : Nat) : byteLog2 b ≤ 7 := by
  unfold byteLog2
  split_ifs <;> omega

/-- The modelled float64 quotient is nonnegative for every byte. -/
theorem float64Div255_nonneg (b : Nat) : 0 ≤ float64Div255 b := by
  unfold float64Div255
  split
  · exact le_refl 0
  · apply mul_nonneg
    · have h := roundHalfEven_nonneg (float64Scaled b) (by unfold float64Scaled; positivity)
      exact_mod_cast h
    · positivity

/-- Correctly rounded division changes the quotient of a byte by 255 by at
most `2^(-53)`: the rounding error is at most half an ulp of the scaled
significand, and the binade exponent of the quotient is at most 0. -/
theorem float64Div255_error (b : Nat) (hb : b ≤ 255) :
    |float64Div255 b - (b : ℚ) / 255| ≤ (2 : ℚ) ^ (-53 : Int) := by
  by_cases h0 : b = 0
  · subst h0
    simp [float64Div255]
    positivity
  · have he : float64Exp b ≤ 0 := by
      unfold float64Exp
      split
      · exact le_refl 0
      · have := byteLog2_le b
        omega
    have hq : float64Scaled b * (2 : ℚ) ^ (float64Exp b - 52) = (b : ℚ) / 255 := by
      unfold float64Scaled
      rw [div_mul_eq_mul_div, mul_assoc, ← zpow_add₀ (by norm_num : (2 : ℚ) ≠ 0)]
      norm_num
    have hrb := roundHalfEven_bounds (float64Scaled b)
    have hpos : (0 : ℚ) < (2 : ℚ) ^ (float64Exp b - 52) := by positivity
    have hsplit : float64Div255 b - (b : ℚ) / 255
        = ((roundHalfEven (float64Scaled b) : ℚ) - float64Scaled b)
          * (2 : ℚ) ^ (float64Exp b - 52) := by
      unfold float64Div255
      rw [if_neg h0, sub_mul, hq]
    rw [hsplit, abs_mul, abs_of_pos hpos]
    have habs : |(roundHalfEven (float64Scaled b) : ℚ) - float64Scaled b| ≤ 1 / 2 := by
      rw [abs_le]
      constructor
      · linarith [hrb.1]
      · linarith [hrb.2]
    calc |(roundHalfEven (float64Scaled b) : ℚ) - float64Scaled b|
          * (2 : ℚ) ^ (float64Exp b - 52)
        ≤ (1 / 2) * (2 : ℚ) ^ (float64Exp b - 52) :=
          mul_le_mul_of_nonneg_right habs (le_of_lt hpos)
      _ = (2 : ℚ) ^ (float64Exp b - 53) := by
          rw [show (1 : ℚ) / 2 = (2 : ℚ) ^ (-1 : Int) by norm_num,
            ← zpow_add₀ (by norm_num : (2 : ℚ) ≠ 0)]
          norm_num
          ring_nf
      _ ≤ (2 : ℚ) ^ (-53 : Int) := by
          apply zpow_le_zpow_right₀ (by norm_num)
          omega

/-! ## Claim theorems -/

/-- C1: for every `Broadcast` whose `value_hash` (or `prepared_value_hash`)
is non-zero and has no entry in the transport's value store, the call
returns the `unknown value` error, and on that path no `SendAsync` call is
made, nothing is enqueued on the inner channel, and nothing is sniffed: the
effects are empty and state is unchanged. -/
theorem broadcast_unknown_value (c : Component) (store : Store)
    (ctxLive : Bool) (randByte : Nat) (typ : Int) (duty : Duty)
    (peerIdx round : Int) (valueHash : Hash) (pr : Int) (pvHash : Hash)
    (justification : List QMsg)
    (h : (valueHash ≠ zeroHash ∧ storeGet store valueHash = none) ∨
      (pvHash ≠ zeroHash ∧ storeGet store pvHash = none)) :
    Broadcast c store ctxLive randByte typ duty peerIdx round valueHash pr
        pvHash justification
      = (Except.error "unknown value", Effects.empty) := by
  unfold Broadcast prepareMsg
  rcases h with ⟨hne, habs⟩ | ⟨hne, habs⟩
  · simp [hne, getValue, habs, Except.map]
  · by_cases hvz : valueHash ≠ zeroHash
    · cases hg : storeGet store valueHash with
      | none => simp [hvz, getValue, hg, Except.map]
      | some u => simp [hvz, getValue, hg, hne, habs, Except.map]
    · simp [hvz, hne, getValue, habs, Except.map]

/-- Witness for C1: a broadcast of an unresolved non-zero hash over an empty
store fails with `unknown value` and produces no effects. -/
theorem broadcast_unknown_value_witness :
    ((List.replicate 32 1 : Hash) ≠ zeroHash ∧
      storeGet ([] : Store) (List.replicate 32 1) = none) ∧
    Broadcast ⟨[], 0, 0, 0, fun _ => Except.ok ()⟩ [] true 0 0 ⟨1, 2⟩ 0 1
        (List.replicate 32 1) 0 zeroHash []
      = (Except.error "unknown value", Effects.empty) :=
  ⟨⟨by decide, rfl⟩,
    broadcast_unknown_value _ _ _ _ _ _ _ _ _ _ _ _ (Or.inl ⟨by decide, rfl⟩)⟩

/-- C2: the claim says `validateMsg` rejects malformed messages, bad
signatures, and hash inconsistencies; the source's `validateMsg` is an
unimplemented TODO that accepts every message, including a structurally
malformed unsigned Prepare with `round = 0` and 0-length hash fields. -/
theorem validateMsg_accepts_everything :
    (∀ m : msg, validateMsg m = Except.ok ()) ∧
    validateMsg ⟨⟨⟨2, ⟨1, 0⟩, 0, 0, none, [], 0, none, []⟩, none⟩, [], []⟩
      = Except.ok () :=
  ⟨fun _ => rfl, rfl⟩

/-- Counterexample for C3: in legacy mode the wire hash fields are the
serialization of a zeroed `[32]byte`, i.e. 32 zero bytes — length 32, not
zero-length as the claim states. -/
theorem createMsg_legacy_hash_not_zero_length :
    (createMsg 0 { slot := 1, dutyType := 2 } 3 1 (List.replicate 32 5)
        (some { typeUrl := "v", data := [1] }) 0 zeroHash none [] 7 false).map
      (fun m => (m.values.length, m.pmsg.body.valueHash.length,
        m.pmsg.body.preparedValueHash.length))
      = Except.ok (0, 32, 32) ∧ (32 : Nat) ≠ 0 :=
  ⟨rfl, by decide⟩

/-- C3 (amended): for every `createMsg` call in legacy mode the side-map is
empty, the full values travel only in the inline fields, and both wire hash
fields hold the 32-byte zero hash (32 zero bytes, not zero-length). -/
theorem createMsg_legacy_mode (typ : Int) (duty : Duty) (peerIdx round : Int)
    (vHash : Hash) (value : Option AnyValue) (pr : Int) (pvHash : Hash)
    (pv : Option AnyValue) (js : List msg) (privkey : Nat) :
    createMsg typ duty peerIdx round vHash value pr pvHash pv (js.map QMsg.impl)
        privkey false
      = Except.ok
        ⟨⟨⟨typ, duty, peerIdx, round, value, zeroHash, pr, pv, zeroHash⟩,
          some (⟨typ, duty, peerIdx, round, value, zeroHash, pr, pv, zeroHash⟩,
            privkey)⟩,
         js.map msg.pmsg, []⟩ := by
  simp [createMsg, justsToProtos_impl, newMsg, signMsg]

/-- Counterexample for C4: in pointer mode with a non-zero `value_hash` the
message carries BOTH formats — the side-map has the matching entry and the
legacy inline field holds the same full value — refuting "never both". -/
theorem createMsg_pointer_both_formats :
    (createMsg 0 { slot := 1, dutyType := 2 } 3 1 (List.replicate 32 5)
        (some { typeUrl := "v", data := [1] }) 0 zeroHash none [] 7 true).map
      (fun m => (m.pmsg.body.valueHash,
        storeGet m.values (List.replicate 32 5), m.pmsg.body.value))
      = Except.ok (List.replicate 32 5, some { typeUrl := "v", data := [1] },
          some { typeUrl := "v", data := [1] }) ∧
    (List.replicate 32 5 : Hash) ≠ zeroHash :=
  ⟨rfl, by decide⟩

/-- C4 (amended): for every message built by `createMsg` with a non-zero
wire `value_hash` and an attached value, the side-map contains the matching
entry AND the legacy inline field also carries the full value — the two
formats coexist redundantly and consistently in one message. -/
theorem createMsg_pointer_value_redundant (typ : Int) (duty : Duty)
    (peerIdx round : Int) (vHash : Hash) (v : AnyValue) (pr : Int)
    (pvHash : Hash) (pv : Option AnyValue) (js : List msg) (privkey : Nat)
    (m : msg)
    (h : createMsg typ duty peerIdx round vHash (some v) pr pvHash pv
        (js.map QMsg.impl) privkey true = Except.ok m)
    (hne : m.pmsg.body.valueHash ≠ zeroHash)
    (hpv : pv = none ∨ pvHash ≠ vHash) :
    storeGet m.values m.pmsg.body.valueHash = some v ∧
    m.pmsg.body.value = some v := by
  simp [createMsg, justsToProtos_impl, newMsg, signMsg] at h
  rcases hpv with hpv | hpv
  · subst hpv
    rw [← h]
    exact ⟨storeGet_put_self _ _ _, rfl⟩
  · rw [← h]
    cases pv with
    | none => exact ⟨storeGet_put_self _ _ _, rfl⟩
    | some u =>
      refine ⟨?_, rfl⟩
      rw [storeGet_put_other _ _ _ _ (Ne.symm hpv)]
      exact storeGet_put_self _ _ _

/-- Witness for C4 (amended): a concrete pointer-mode build exhibits the
matching side-map entry and the redundant inline value. -/
theorem createMsg_pointer_value_redundant_witness :
    (createMsg 0 ⟨1, 2⟩ 3 1 (List.replicate 32 5) (some ⟨"v", [1]⟩) 0 zeroHash
        none (([] : List msg).map QMsg.impl) 7 true
      = Except.ok ⟨⟨⟨0, ⟨1, 2⟩, 3, 1, some ⟨"v", [1]⟩, List.replicate 32 5, 0,
          none, zeroHash⟩,
        some (⟨0, ⟨1, 2⟩, 3, 1, some ⟨"v", [1]⟩, List.replicate 32 5, 0, none,
          zeroHash⟩, 7)⟩, [],
        [(List.replicate 32 5, ⟨"v", [1]⟩)]⟩) ∧
    (storeGet [(List.replicate 32 5, ⟨"v", [1]⟩)] (List.replicate 32 5)
        = some ⟨"v", [1]⟩ ∧
      (some ⟨"v", [1]⟩ : Option AnyValue) = some ⟨"v", [1]⟩) :=
  ⟨rfl, createMsg_pointer_value_redundant 0 ⟨1, 2⟩ 3 1 (List.replicate 32 5)
    ⟨"v", [1]⟩ 0 zeroHash none [] 7 _ rfl (by decide) (Or.inl rfl)⟩

/-- C5: every justification embedded by `createMsg` is the bare envelope of
the input message — the inputs' own nested justification lists are dropped
before embedding, so wire justification depth is at most 1 (the embedded
entries are plain `QBFTMsg` envelopes carrying no justification list). -/
theorem createMsg_justifications_flattened (typ : Int) (duty : Duty)
    (peerIdx round : Int) (vHash : Hash) (value : Option AnyValue) (pr : Int)
    (pvHash : Hash) (pv : Option AnyValue) (js : List msg) (privkey : Nat)
    (pointerValues : Bool) :
    (createMsg typ duty peerIdx round vHash value pr pvHash pv
        (js.map QMsg.impl) privkey pointerValues).map
      (fun m => m.ToConsensusMsg.justification)
      = Except.ok (js.map msg.pmsg) := by
  simp [createMsg, justsToProtos_impl, newMsg, Except.map, msg.ToConsensusMsg]

/-- C6: `ProcessReceives` handles each message by validating first (an
invalid message leaves the state untouched), then caching the carried
values, then enqueueing on the inner channel, then recording in the
sniffer; afterwards a hash carried by the message resolves through the
value store, as a subsequent `Broadcast` requires. -/
theorem processReceive_pipeline (st : TransportState) (m : msg) (H : Hash)
    (v : AnyValue) (hnd : (m.values.map Prod.fst).Nodup)
    (hv : storeGet m.values H = some v) :
    (∀ e, validateMsg m = Except.error e → processReceive st m = st) ∧
    processReceive st m = ⟨setValues st.values m, st.recvBuffer ++ [m],
      st.sniffed ++ [m.ToConsensusMsg]⟩ ∧
    getValue (setValues st.values m) H = Except.ok v := by
  refine ⟨?_, rfl, ?_⟩
  · intro e he
    simp [validateMsg] at he
  · unfold getValue setValues
    rw [storeGet_putAll_mem m.values st.values H v hnd hv]

/-- Witness for C6: processing a concrete message carrying one value makes
its hash resolvable and appends the message to the inner channel and
sniffer. -/
theorem processReceive_pipeline_witness :
    (List.map Prod.fst
        [((List.replicate 32 5 : Hash), (⟨"v", [1]⟩ : AnyValue))]).Nodup ∧
    storeGet [(List.replicate 32 5, ⟨"v", [1]⟩)] (List.replicate 32 5)
      = some ⟨"v", [1]⟩ ∧
    ((∀ e, validateMsg ⟨⟨⟨0, ⟨1, 2⟩, 3, 1, none, zeroHash, 0, none, zeroHash⟩,
          none⟩, [], [(List.replicate 32 5, ⟨"v", [1]⟩)]⟩ = Except.error e →
        processReceive ⟨[], [], []⟩ ⟨⟨⟨0, ⟨1, 2⟩, 3, 1, none, zeroHash, 0, none,
          zeroHash⟩, none⟩, [], [(List.replicate 32 5, ⟨"v", [1]⟩)]⟩
          = ⟨[], [], []⟩) ∧
      processReceive ⟨[], [], []⟩ ⟨⟨⟨0, ⟨1, 2⟩, 3, 1, none, zeroHash, 0, none,
          zeroHash⟩, none⟩, [], [(List.replicate 32 5, ⟨"v", [1]⟩)]⟩
        = ⟨setValues [] ⟨⟨⟨0, ⟨1, 2⟩, 3, 1, none, zeroHash, 0, none, zeroHash⟩,
            none⟩, [], [(List.replicate 32 5, ⟨"v", [1]⟩)]⟩,
          [] ++ [⟨⟨⟨0, ⟨1, 2⟩, 3, 1, none, zeroHash, 0, none, zeroHash⟩, none⟩,
            [], [(List.replicate 32 5, ⟨"v", [1]⟩)]⟩],
          [] ++ [msg.ToConsensusMsg ⟨⟨⟨0, ⟨1, 2⟩, 3, 1, none, zeroHash, 0, none,
            zeroHash⟩, none⟩, [], [(List.replicate 32 5, ⟨"v", [1]⟩)]⟩]⟩ ∧
      getValue (setValues [] ⟨⟨⟨0, ⟨1, 2⟩, 3, 1, none, zeroHash, 0, none,
          zeroHash⟩, none⟩, [], [(List.replicate 32 5, ⟨"v", [1]⟩)]⟩)
          (List.replicate 32 5)
        = Except.ok ⟨"v", [1]⟩) :=
  ⟨by decide, rfl,
    processReceive_pipeline ⟨[], [], []⟩ _ (List.replicate 32 5) ⟨"v", [1]⟩
      (by decide) rfl⟩

/-- Counterexample for C7: a successful broadcast over two peers produces
two outbound copies (one loopback, one remote send) but only one sniffer
entry — the remote copies are not added to the sniffer. -/
theorem broadcast_sniffer_misses_remote_copies :
    ((Broadcast ⟨[0, 1], 0, 7, 0, fun _ => Except.ok ()⟩ [] true 0 0 ⟨1, 2⟩ 0 1
        zeroHash 0 zeroHash []).2.sniffed.length,
      (Broadcast ⟨[0, 1], 0, 7, 0, fun _ => Except.ok ()⟩ [] true 0 0 ⟨1, 2⟩ 0 1
        zeroHash 0 zeroHash []).2.loopback.length
      + (Broadcast ⟨[0, 1], 0, 7, 0, fun _ => Except.ok ()⟩ [] true 0 0 ⟨1, 2⟩ 0 1
        zeroHash 0 zeroHash []).2.sends.length)
      = (1, 2) ∧ (1 : Nat) ≠ 2 :=
  ⟨rfl, by decide⟩

/-- C7 (amended): for every broadcast that builds a message, exactly the
loopback copy enqueued on the inner channel is added to the sniffer; the
remote sends are not recorded on the outbound path. -/
theorem broadcast_sniffs_only_loopback (c : Component) (store : Store)
    (randByte : Nat) (typ : Int) (duty : Duty) (peerIdx round : Int)
    (valueHash : Hash) (pr : Int) (pvHash : Hash) (justification : List QMsg)
    (m : msg)
    (h : prepareMsg c store randByte typ duty peerIdx round valueHash pr pvHash
        justification = Except.ok m) :
    (Broadcast c store true randByte typ duty peerIdx round valueHash pr pvHash
        justification).2.sniffed = [m.ToConsensusMsg] ∧
    (Broadcast c store true randByte typ duty peerIdx round valueHash pr pvHash
        justification).2.loopback = [m] := by
  constructor
  · simp [Broadcast, h]
  · simp [Broadcast, h]

/-- Witness for C7 (amended): a concrete broadcast sniffs exactly its
loopback copy. -/
theorem broadcast_sniffs_only_loopback_witness :
    prepareMsg ⟨[0, 1], 0, 7, 0, fun _ => Except.ok ()⟩ [] 0 0 ⟨1, 2⟩ 0 1
        zeroHash 0 zeroHash []
      = Except.ok ⟨⟨⟨0, ⟨1, 2⟩, 0, 1, none, zeroHash, 0, none, zeroHash⟩,
        some (⟨0, ⟨1, 2⟩, 0, 1, none, zeroHash, 0, none, zeroHash⟩, 7)⟩, [], []⟩ ∧
    ((Broadcast ⟨[0, 1], 0, 7, 0, fun _ => Except.ok ()⟩ [] true 0 0 ⟨1, 2⟩ 0 1
        zeroHash 0 zeroHash []).2.sniffed
      = [msg.ToConsensusMsg ⟨⟨⟨0, ⟨1, 2⟩, 0, 1, none, zeroHash, 0, none,
          zeroHash⟩,
        some (⟨0, ⟨1, 2⟩, 0, 1, none, zeroHash, 0, none, zeroHash⟩, 7)⟩, [], []⟩] ∧
      (Broadcast ⟨[0, 1], 0, 7, 0, fun _ => Except.ok ()⟩ [] true 0 0 ⟨1, 2⟩ 0 1
        zeroHash 0 zeroHash []).2.loopback
      = [⟨⟨⟨0, ⟨1, 2⟩, 0, 1, none, zeroHash, 0, none, zeroHash⟩,
        some (⟨0, ⟨1, 2⟩, 0, 1, none, zeroHash, 0, none, zeroHash⟩, 7)⟩, [], []⟩]) := by
  have hu : usePointerValues 0 0 = true := by simp [usePointerValues, float64Div255]
  have hprep : prepareMsg ⟨[0, 1], 0, 7, 0, fun _ => Except.ok ()⟩ [] 0 0 ⟨1, 2⟩
      0 1 zeroHash 0 zeroHash []
      = Except.ok ⟨⟨⟨0, ⟨1, 2⟩, 0, 1, none, zeroHash, 0, none, zeroHash⟩,
        some (⟨0, ⟨1, 2⟩, 0, 1, none, zeroHash, 0, none, zeroHash⟩, 7)⟩, [], []⟩ := by
    simp [prepareMsg, createMsg, hu, justsToProtos, newMsg, signMsg, getValue]
  exact ⟨hprep, broadcast_sniffs_only_loopback _ _ _ _ _ _ _ _ _ _ _ _ hprep⟩

/-- C8: for every broadcast that builds a message over an operator set
containing the local identity exactly once, the P2P sender is never invoked
with the local identity; if every remote send succeeds the call succeeds
after exactly `n - 1` sends; and the first failing send aborts the loop
with that error surfaced and no further sends. -/
theorem broadcast_fanout (c : Component) (store : Store)
    (ctxLive : Bool) (randByte : Nat) (typ : Int) (duty : Duty)
    (peerIdx round : Int) (valueHash : Hash) (pr : Int) (pvHash : Hash)
    (justification : List QMsg) (m : msg)
    (h : prepareMsg c store randByte typ duty peerIdx round valueHash pr pvHash
        justification = Except.ok m)
    (hcount : c.peers.count c.localID = 1) :
    c.localID ∉ (Broadcast c store ctxLive randByte typ duty peerIdx round
        valueHash pr pvHash justification).2.sends ∧
    ((∀ p ∈ c.peers, p ≠ c.localID → c.sendAsync p = Except.ok ()) →
      (Broadcast c store ctxLive randByte typ duty peerIdx round valueHash pr
          pvHash justification).1 = Except.ok () ∧
      (Broadcast c store ctxLive randByte typ duty peerIdx round valueHash pr
          pvHash justification).2.sends.length = c.peers.length - 1) ∧
    (∀ pre p post e,
      c.peers.filter (fun q => !(q == c.localID)) = pre ++ p :: post →
      (∀ q ∈ pre, c.sendAsync q = Except.ok ()) →
      c.sendAsync p = Except.error e →
      (Broadcast c store ctxLive randByte typ duty peerIdx round valueHash pr
          pvHash justification).1 = Except.error e ∧
      (Broadcast c store ctxLive randByte typ duty peerIdx round valueHash pr
          pvHash justification).2.sends = pre ++ [p]) := by
  simp only [Broadcast, h]
  refine ⟨?_, ?_, ?_⟩
  · exact sendToPeers_no_self c.sendAsync c.localID c.peers
  · intro hall
    rw [sendToPeers_all_ok c.sendAsync c.localID c.peers hall]
    exact ⟨rfl, filter_ne_length c.peers c.localID hcount⟩
  · intro pre p post e hsplit hpre hp
    rw [sendToPeers_first_error c.sendAsync c.localID c.peers p post e pre
      hsplit hpre hp]
    exact ⟨rfl, rfl⟩

/-- Witness for C8: a two-operator broadcast from operator 0 sends to
exactly one peer, never itself. -/
theorem broadcast_fanout_witness :
    List.count 0 [0, 1] = 1 ∧
    (0 ∉ (Broadcast ⟨[0, 1], 0, 7, 0, fun _ => Except.ok ()⟩ [] true 0 0 ⟨1, 2⟩
        0 1 zeroHash 0 zeroHash []).2.sends ∧
      ((∀ p ∈ [0, 1], p ≠ 0 →
          (fun _ : Nat => (Except.ok () : Except String Unit)) p = Except.ok ()) →
        (Broadcast ⟨[0, 1], 0, 7, 0, fun _ => Except.ok ()⟩ [] true 0 0 ⟨1, 2⟩
            0 1 zeroHash 0 zeroHash []).1 = Except.ok () ∧
        (Broadcast ⟨[0, 1], 0, 7, 0, fun _ => Except.ok ()⟩ [] true 0 0 ⟨1, 2⟩
            0 1 zeroHash 0 zeroHash []).2.sends.length = [0, 1].length - 1) ∧
      (∀ pre p post e,
        [0, 1].filter (fun q => !(q == 0)) = pre ++ p :: post →
        (∀ q ∈ pre,
          (fun _ : Nat => (Except.ok () : Except String Unit)) q = Except.ok ()) →
        (fun _ : Nat => (Except.ok () : Except String Unit)) p = Except.error e →
        (Broadcast ⟨[0, 1], 0, 7, 0, fun _ => Except.ok ()⟩ [] true 0 0 ⟨1, 2⟩
            0 1 zeroHash 0 zeroHash []).1 = Except.error e ∧
        (Broadcast ⟨[0, 1], 0, 7, 0, fun _ => Except.ok ()⟩ [] true 0 0 ⟨1, 2⟩
            0 1 zeroHash 0 zeroHash []).2.sends = pre ++ [p])) := by
  refine ⟨by decide, broadcast_fanout _ _ _ _ _ _ _ _ _ _ _ _
    ⟨⟨⟨0, ⟨1, 2⟩, 0, 1, none, zeroHash, 0, none, zeroHash⟩,
      some (⟨0, ⟨1, 2⟩, 0, 1, none, zeroHash, 0, none, zeroHash⟩, 7)⟩, [], []⟩
    ?_ (by decide)⟩
  have hu : usePointerValues 0 0 = true := by simp [usePointerValues, float64Div255]
  simp [prepareMsg, createMsg, hu, justsToProtos, newMsg, signMsg, getValue]

/-- Counterexample for C9: at byte `b = 51` with `legacy_probability` the
float64 nearest to 0.2, namely `3602879701896397 / 2^54`, the program
computes `fl(51/255) = fl(0.2)`, equal to the probability bit for bit, so
the comparison `f >= p` holds and pointer mode is selected — while the
claim's exact fraction `51/255 = 1/5` is strictly below the probability, so
the claimed test says legacy mode. -/
theorem usePointerValues_exact_fraction_counterexample :
    usePointerValues 51 (3602879701896397 / 18014398509481984 : ℚ) = true ∧
    ¬ ((51 : ℚ) / 255 ≥ (3602879701896397 / 18014398509481984 : ℚ)) := by
  have hlog : byteLog2 51 = 5 := by norm_num [byteLog2]
  have hexp : float64Exp 51 = -3 := by
    rw [float64Exp, if_neg (by norm_num), hlog]
    norm_num
  have hfl : ⌊(36028797018963968 : ℚ) / 5⌋ = 7205759403792793 := by
    rw [Int.floor_eq_iff]
    norm_num
  have hscaled : float64Scaled 51 = (36028797018963968 : ℚ) / 5 := by
    rw [float64Scaled, hexp]
    norm_num
  have hround : roundHalfEven ((36028797018963968 : ℚ) / 5) = 7205759403792794 := by
    rw [roundHalfEven, hfl]
    rw [if_neg (by norm_num), if_pos (by norm_num)]
    norm_num
  have hval : float64Div255 51 = 3602879701896397 / 18014398509481984 := by
    rw [float64Div255, if_neg (by norm_num), hscaled, hround, hexp]
    norm_num
  constructor
  · simp [usePointerValues, hval]
  · norm_num

/-- C9 (amended): `usePointerValues` draws one byte `b` and selects pointer
mode exactly when the correctly rounded IEEE 754 float64 quotient
`fl(b / 255)` is at least the legacy probability — a test that can differ
from the exact-fraction comparison only within the rounding error, which is
at most `2^(-53)`; with `legacy_probability = 0` every draw selects pointer
mode, so the legacy path is never taken. -/
theorem usePointerValues_mode (b : Nat) (p : ℚ) (hb : b ≤ 255) :
    (usePointerValues b p = true ↔ float64Div255 b ≥ p) ∧
    |float64Div255 b - (b : ℚ) / 255| ≤ (2 : ℚ) ^ (-53 : Int) ∧
    usePointerValues b 0 = true := by
  refine ⟨by simp [usePointerValues], float64Div255_error b hb, ?_⟩
  simp [usePointerValues]
  exact float64Div255_nonneg b

/-- Witness for C9 (amended): the draw 51 against the float64 nearest to
probability 0.2. -/
theorem usePointerValues_mode_witness :
    51 ≤ 255 ∧
    ((usePointerValues 51 (3602879701896397 / 18014398509481984 : ℚ) = true ↔
        float64Div255 51 ≥ (3602879701896397 / 18014398509481984 : ℚ)) ∧
      |float64Div255 51 - (51 : ℚ) / 255| ≤ (2 : ℚ) ^ (-53 : Int) ∧
      usePointerValues 51 0 = true) :=
  ⟨by decide,
    usePointerValues_mode 51 (3602879701896397 / 18014398509481984) (by decide)⟩

/-- C10: the signature is computed over the envelope alone, before the
justifications and the values side-map are attached: two `createMsg` calls
differing only in the justification list produce identical signed
envelopes, and the stored signature is a function of exactly the envelope
body and the private key — the attached side-map and justification list are
not covered. -/
theorem createMsg_signature_envelope_only (typ : Int) (duty : Duty)
    (peerIdx round : Int) (vHash : Hash) (value : Option AnyValue) (pr : Int)
    (pvHash : Hash) (pv : Option AnyValue) (js1 js2 : List msg) (privkey : Nat)
    (pointerValues : Bool) :
    (createMsg typ duty peerIdx round vHash value pr pvHash pv (js1.map QMsg.impl)
        privkey pointerValues).map msg.pmsg
      = (createMsg typ duty peerIdx round vHash value pr pvHash pv (js2.map QMsg.impl)
        privkey pointerValues).map msg.pmsg ∧
    (createMsg typ duty peerIdx round vHash value pr pvHash pv (js1.map QMsg.impl)
        privkey pointerValues).map
      (fun m => decide (m.pmsg.signature = some (m.pmsg.body, privkey)))
      = Except.ok true := by
  constructor
  · simp [createMsg, justsToProtos_impl, newMsg, Except.map]
  · simp [createMsg, justsToProtos_impl, newMsg, Except.map, signMsg]

end Consensus
